import Mathlib

/-!
# Verification of the examquiz repository

Shallow embedding, in Lean 4, of the parts of the `examquiz` Django
application that the specification talks about:

* the string machinery of the CSV importer
  (`quiz/management/commands/import_questions_csv.py`),
* the correct-answer resolution cascade of `Command.process_row`,
* the per-file row-processing loop of `Command.process_csv_file`
  including its transaction semantics,
* the quiz data model operations of `quiz/models.py`
  (`UserAnswer.check_answer`, `QuizSession.calculate_score`,
  `complete_quiz`, `pause_quiz`, `resume_quiz`, `get_remaining_time`,
  `UserProfile.add_tokens` / `deduct_tokens` / `grant_daily_tokens`),
* the relevant views (`quiz_submit_answer`, `quiz_result`).

Python strings are modelled as `List Char`; Python `float` timestamps
as `ℚ` (exact arithmetic); Python `int` as `Int`; the database as
explicit in-memory structures with explicit state passing.
-/

namespace ExamQuiz

/-! ## String machinery (Python `str` as `List Char`) -/

/-- Python strings are modelled as lists of characters. -/
abbrev Str := List Char

/-- Python's `str.lower()`. -/
def lowerS (s : Str) : Str := s.map Char.toLower

/-- Python's `str.strip()`: drop leading and trailing whitespace. -/
def stripS (s : Str) : Str :=
  ((s.dropWhile Char.isWhitespace).reverse.dropWhile Char.isWhitespace).reverse

/-- `startsWithS n h` : `h` begins with `n`. -/
def startsWithS : Str → Str → Bool
  | [], _ => true
  | _ :: _, [] => false
  | a :: as, b :: bs => a = b && startsWithS as bs

/-- Python's substring test `n in h` (for strings). -/
def containsS (needle : Str) : Str → Bool
  | [] => needle.isEmpty
  | c :: rest => startsWithS needle (c :: rest) || containsS needle rest

/-- Python's `str.split(sep)` for a one-character separator:
always returns at least one (possibly empty) piece. -/
def splitOnS (sep : Char) : Str → List Str
  | [] => [[]]
  | c :: rest =>
    if c = sep then [] :: splitOnS sep rest
    else
      match splitOnS sep rest with
      | [] => [[c]]
      | p :: ps => (c :: p) :: ps

/-- Numeric value of a digit string (most significant digit first). -/
def digitsVal (s : Str) : Nat :=
  s.foldl (fun acc c => acc * 10 + (c.toNat - '0'.toNat)) 0

/-- A non-empty string consisting only of decimal digits. -/
def allDigits (s : Str) : Bool := !s.isEmpty && s.all Char.isDigit

/-- Python's `int(s)` for decimal strings: optional surrounding
whitespace, optional single `+`/`-` sign, then digits; `none` models a
raised `ValueError`. -/
def parseIntS (s : Str) : Option Int :=
  let t := stripS s
  if allDigits t then some (digitsVal t)
  else if startsWithS ['-'] t && allDigits (t.drop 1) then some (-(digitsVal (t.drop 1) : Int))
  else if startsWithS ['+'] t && allDigits (t.drop 1) then some ((digitsVal (t.drop 1) : Nat) : Int)
  else none

/-- Python's `str(n)` for an `int`. -/
def intToStrS (n : Int) : Str := (toString n).data

/-- `remove_all_brackets` from the importer: delete every `[` and `]`. -/
def removeBracketsS (s : Str) : Str :=
  s.filter (fun c => !(c = '[' || c = ']'))

/-! ## Question types and difficulties (`quiz/models.py`) -/

/-- `Question.QUESTION_TYPE_CHOICES`. -/
inductive QType where
  | single
  | multiple
  | true_false
deriving DecidableEq, Repr

/-- `Question.DIFFICULTY_CHOICES`. -/
inductive Diff where
  | easy
  | medium
  | hard
deriving DecidableEq, Repr

/-! ## Correct-answer resolution cascade
(`Command.process_row`, `import_questions_csv.py` lines 486-577)

Each heuristic is embedded separately and `resolveCorrectIndices`
strings them together exactly the way the Python control flow
(including the nested `try`/`except ValueError` chain) does. -/

/-- Heuristic (a): first exact case-insensitive, trimmed text match
(the source appends one index and breaks). -/
def hExact (cs : List Str) (a : Str) : List Nat :=
  let al := lowerS (stripS a)
  match cs.findIdx? (fun c => lowerS (stripS c) = al) with
  | some i => [i]
  | none => []

/-- The containment test of heuristic (b): answer text contained in the
choice or vice versa (case-insensitive, trimmed). -/
def bCond (a c : Str) : Bool :=
  let al := lowerS (stripS a)
  let cl := lowerS (stripS c)
  containsS al cl || containsS cl al

/-- All indices matching heuristic (b), in order. -/
def bMatches (cs : List Str) (a : Str) : List Nat :=
  (List.range cs.length).filter (fun i => bCond a (cs.getD i []))

/-- Heuristic (b): substring containment either direction; for `single`
questions the source breaks after the first match, otherwise it
collects every match. -/
def hContain (qt : QType) (cs : List Str) (a : Str) : List Nat :=
  if qt = QType.single then (bMatches cs a).take 1 else bMatches cs a

/-- Heuristic (c): if the answer text appears inside the question text,
take the first choice that matches the answer exactly, contains it, or
(when the answer is an `int`) contains its decimal rendering.  Note the
source compares the last two conditions against the *raw* choice text,
not the lower-cased one. -/
def hInQuestion (qtext : Str) (cs : List Str) (a : Str) : List Nat :=
  let ql := lowerS qtext
  let al := lowerS (stripS a)
  if containsS al ql then
    match cs.findIdx? (fun c =>
      let cl := lowerS (stripS c)
      (al = cl || containsS al cl) ||
      (match parseIntS al with
       | some m => containsS (intToStrS m) c || containsS al c
       | none => false)) with
    | some i => [i]
    | none => []
  else []

/-- `[int(x.strip()) for x in pieces]`: `none` models the `ValueError`
raised as soon as any piece fails to parse. -/
def parseAllInts : List Str → Option (List Int)
  | [] => some []
  | p :: ps =>
    match parseIntS p, parseAllInts ps with
    | some m, some ms => some (m :: ms)
    | _, _ => none

/-- `[idx - 1 for idx in indices if 1 <= idx <= len(choices_list)]`. -/
def filterIdx (len : Nat) (idxs : List Int) : List Nat :=
  (idxs.filter (fun i => 1 ≤ i && i ≤ (len : Int))).map (fun i => (i - 1).toNat)

/-- Heuristic (d): the answer as a 1-indexed choice number — a single
number, else comma-separated numbers, else pipe-separated numbers. -/
def hNumeric (cs : List Str) (a : Str) : List Nat :=
  match parseIntS a with
  | some m => if 1 ≤ m ∧ m ≤ (cs.length : Int) then [(m - 1).toNat] else []
  | none =>
    match parseAllInts (splitOnS ',' a) with
    | some idxs => filterIdx cs.length idxs
    | none =>
      match parseAllInts (splitOnS '|' a) with
      | some idxs => filterIdx cs.length idxs
      | none => []

/-- The pipe-separated answer pieces, trimmed, lower-cased, empties
dropped (`[c.strip().lower() for c in text.split('|') if c.strip()]`). -/
def ePieces (a : Str) : List Str :=
  ((splitOnS '|' a).map (fun c => lowerS (stripS c))).filter (fun p => !p.isEmpty)

/-- The fuzzy test of the `except`-chain pass (line 559): equality, or
containment either direction. -/
def eCondFull (p c : Str) : Bool := p == c || containsS p c || containsS c p

/-- The fuzzy test of the trailing multi-answer pass (line 570):
containment either direction only. -/
def eCondPart (p c : Str) : Bool := containsS p c || containsS c p

/-- Heuristic (e) as it appears at the end of the `except` chain
(lines 554-561): every choice matched fuzzily by some pipe piece. -/
def hPipeText (cs : List Str) (a : Str) : List Nat :=
  (List.range cs.length).filter (fun i =>
    (ePieces a).any (fun p => eCondFull p (lowerS (stripS (cs.getD i [])))))

/-- The trailing pass at lines 564-572 (`if not correct_indices and
'|' in correct_answer_text`). -/
def hPipeText2 (cs : List Str) (a : Str) : List Nat :=
  (List.range cs.length).filter (fun i =>
    (ePieces a).any (fun p => eCondPart p (lowerS (stripS (cs.getD i [])))))

/-- The full resolution logic of `process_row` (lines 490-572),
with the `try`/`except ValueError` nesting made explicit. -/
def resolveCorrectIndices (qt : QType) (qtext : Str) (cs : List Str) (a : Str) : List Nat :=
  if a.isEmpty then [] else
  let r1 := hExact cs a
  if !r1.isEmpty then r1 else
  let r2 := hContain qt cs a
  if !r2.isEmpty then r2 else
  let r3 := hInQuestion qtext cs a
  if !r3.isEmpty then r3 else
  let r4 :=
    match parseIntS a with
    | some m => if 1 ≤ m ∧ m ≤ (cs.length : Int) then [(m - 1).toNat] else []
    | none =>
      match parseAllInts (splitOnS ',' a) with
      | some idxs => filterIdx cs.length idxs
      | none =>
        match parseAllInts (splitOnS '|' a) with
        | some idxs => filterIdx cs.length idxs
        | none => hPipeText cs a
  if !r4.isEmpty then r4 else
  if '|' ∈ a then hPipeText2 cs a else []

/-- The specification's reading of the cascade: the heuristics are
tried strictly in order (a), (b), (c), (d), (e), stopping at the first
that yields at least one index. -/
def firstNonEmpty : List (List Nat) → List Nat
  | [] => []
  | l :: ls => if l.isEmpty then firstNonEmpty ls else l

/-- Modelled from the spec's words (for the refinement theorem): the
cascade as the specification describes it. -/
def specResolve (qt : QType) (qtext : Str) (cs : List Str) (a : Str) : List Nat :=
  firstNonEmpty
    [hExact cs a, hContain qt cs a, hInQuestion qtext cs a, hNumeric cs a, hPipeText cs a]

/-- Python's `repr` of a string (quotes; escaping is irrelevant for the
inputs at hand). -/
def pyStrRepr (s : Str) : Str := '\'' :: (s ++ ['\''])

/-- `", ".join(pieces)`. -/
def joinCommaS : List Str → Str
  | [] => []
  | [x] => x
  | x :: y :: rest => x ++ (", ".data ++ joinCommaS (y :: rest))

/-- Python's `str` of a list of strings, as f-string interpolation
renders `choices_list`. -/
def pyListRepr (cs : List Str) : Str :=
  '[' :: (joinCommaS (cs.map pyStrRepr) ++ [']'])

/-- The error message of line 576:
`Could not determine correct answer. Provided: "..". Choices: [..]`. -/
def couldNotDetermineMsg (a : Str) (cs : List Str) : Str :=
  "Could not determine correct answer. Provided: \"".data ++ a
    ++ "\". Choices: ".data ++ pyListRepr cs

/-! ## Answer evaluation (`UserAnswer.check_answer`, models.py 218-233)

Choices are identified by their ids; `correct` is the set of ids of
the question's correct choices (`Question.get_correct_choices`) and
`selected` the set of ids of the `selected_choices` m2m relation. -/

/-- `UserAnswer.check_answer`: the value stored into `is_correct`. -/
def check_answer (qt : QType) (correct selected : Finset Nat) : Bool :=
  match qt with
  | QType.single => decide (selected.card = 1) && decide (selected = correct)
  | QType.multiple => decide (selected = correct)
  | QType.true_false => decide (selected.card = 1) && decide (selected = correct)

/-! ## Quiz sessions (`QuizSession`, models.py 114-200)

Wall-clock instants (`timezone.now()`, `started_at`, `paused_at`) are
rationals measured in seconds. -/

/-- Python's `int(x)` on a float: truncation toward zero. -/
def pyInt (q : ℚ) : Int := if 0 ≤ q then ⌊q⌋ else ⌈q⌉

/-- The mutable columns of a `QuizSession` row. -/
structure Session where
  started_at : ℚ
  completed_at : Option ℚ := none
  is_completed : Bool := false
  score : ℚ := 0
  total_questions : Nat := 0
  correct_answers : Nat := 0
  time_taken_seconds : Option Int := none
  tokens_granted : Bool := false
  is_paused : Bool := false
  paused_at : Option ℚ := none
  total_paused_seconds : Int := 0
deriving DecidableEq, Repr

/-- The database context `calculate_score` queries: the number of
active questions currently in the session's exam and the number of the
session's user answers with `is_correct=True`. -/
structure ScoreEnv where
  activeQuestionCount : Nat
  correctAnswerCount : Nat
deriving DecidableEq, Repr

/-- `QuizSession.calculate_score`: returns the value the method
returns together with the updated session row. -/
def calculate_score (env : ScoreEnv) (s : Session) : ℚ × Session :=
  if env.activeQuestionCount = 0 then (0, s)
  else
    let sc : ℚ := ((env.correctAnswerCount : ℚ) / (env.activeQuestionCount : ℚ)) * 100
    (sc, { s with
             correct_answers := env.correctAnswerCount
             total_questions := env.activeQuestionCount
             score := sc })

/-- `QuizSession.complete_quiz` (`started_at` is always set, being an
`auto_now_add` column). -/
def complete_quiz (now : ℚ) (env : ScoreEnv) (s : Session) : Session :=
  let s1 := { s with is_completed := true, completed_at := some now }
  let s2 := { s1 with time_taken_seconds := some (pyInt (now - s1.started_at)) }
  (calculate_score env s2).2

/-- `QuizSession.pause_quiz`. -/
def pause_quiz (now : ℚ) (s : Session) : Bool × Session :=
  if !s.is_paused && !s.is_completed then
    (true, { s with is_paused := true, paused_at := some now })
  else (false, s)

/-- `QuizSession.resume_quiz`. -/
def resume_quiz (now : ℚ) (s : Session) : Bool × Session :=
  if s.is_paused && !s.is_completed then
    let s1 :=
      match s.paused_at with
      | some p => { s with total_paused_seconds := s.total_paused_seconds + pyInt (now - p) }
      | none => s
    (true, { s1 with is_paused := false, paused_at := none })
  else (false, s)

/-- `QuizSession.get_remaining_time`; `examDurationMinutes` is the
session's exam's `duration_minutes` column. -/
def get_remaining_time (now : ℚ) (examDurationMinutes : Nat) (s : Session) : Int :=
  if s.is_completed then 0
  else
    let exam_duration_seconds : ℚ := (examDurationMinutes : ℚ) * 60
    let elapsed_time : ℚ := now - s.started_at
    let current_pause_duration : ℚ :=
      if s.is_paused then
        match s.paused_at with
        | some p => now - p
        | none => 0
      else 0
    let actual_elapsed : ℚ := elapsed_time - (s.total_paused_seconds : ℚ) - current_pause_duration
    pyInt (max 0 (exam_duration_seconds - actual_elapsed))

/-- The duration of any in-progress pause, as the specification words
it ("the duration of any in-progress pause"). -/
def inProgressPause (now : ℚ) (s : Session) : ℚ :=
  if s.is_paused then
    match s.paused_at with
    | some p => now - p
    | none => 0
  else 0

/-! ## Views (`quiz/views.py`) -/

/-- One `UserAnswer` row of a session: the question id, the set of
selected choice ids, and the stored `is_correct` flag. -/
structure AnswerRec where
  question : Nat
  selected : Finset Nat
  is_correct : Bool
deriving DecidableEq

/-- `quiz_result` (views.py 481-493): complete the session if it is
not completed yet, then recalculate the score against the current
database context and save. -/
def quizResult (now : ℚ) (env : ScoreEnv) (s : Session) : Session :=
  let s1 := if s.is_completed then s else complete_quiz now env s
  (calculate_score env s1).2

/-- `quiz_submit_answer` (views.py 392-429): returns the HTTP status
code and the session's answer rows afterwards.  `questionChoiceIds` is
the set of choice ids belonging to the posted question (the
`Choice.objects.filter(id__in=choice_ids, question=question)` lookup);
`qt`/`correct` are the question's type and correct-choice ids.  The
view never writes the session row itself, so only the answers are
returned.  The `get_object_or_404` 404 path for an unknown question id
is elided: it cannot be reached on a completed session, which is
checked first. -/
def quizSubmitAnswer (method : Str) (s : Session) (answers : List AnswerRec)
    (questionId : Option Nat) (choiceIds : Finset Nat)
    (questionChoiceIds : Finset Nat) (qt : QType) (correct : Finset Nat) :
    Nat × List AnswerRec :=
  if method ≠ "POST".data then (405, answers)
  else if s.is_completed then (400, answers)
  else
    match questionId with
    | none => (400, answers)
    | some q =>
      if choiceIds = ∅ then (400, answers)
      else
        let choices := choiceIds ∩ questionChoiceIds
        if choices = ∅ then (400, answers)
        else
          let newRec : AnswerRec := ⟨q, choices, check_answer qt correct choices⟩
          if answers.any (fun a => a.question == q) then
            (200, answers.map (fun a => if a.question == q then newRec else a))
          else
            (200, answers ++ [newRec])

/-! ## Token economy (`UserProfile`, models.py 250-328)

The token balance is an `Int` so that the no-negative-balance
invariant is a real statement; calendar dates are day numbers. -/

/-- The token-related columns of a `UserProfile` row. -/
structure Profile where
  tokens : Int
  last_token_grant_date : Option Nat := none
deriving DecidableEq, Repr

/-- `UserProfile.add_tokens`. -/
def add_tokens (amount : Int) (p : Profile) : Profile :=
  { p with tokens := p.tokens + amount }

/-- `UserProfile.deduct_tokens`. -/
def deduct_tokens (amount : Int) (p : Profile) : Bool × Profile :=
  if p.tokens ≥ amount then (true, { p with tokens := p.tokens - amount })
  else (false, p)

/-- `UserProfile.has_tokens`. -/
def has_tokens (amount : Int) (p : Profile) : Bool := p.tokens ≥ amount

/-- `UserProfile.grant_daily_tokens`; `today` is `timezone.now().date()`. -/
def grant_daily_tokens (today : Nat) (p : Profile) : Bool × Profile :=
  if p.last_token_grant_date = some today then (false, p)
  else (true, { p with tokens := p.tokens + 10, last_token_grant_date := some today })

/-! ## The importer's database effects
(`Command.process_row` / `Command.process_csv_file`)

Categories are keyed by name, exams by (category name, exam name)
— `Exam` has `unique_together = ['category', 'name']` — topics by
(exam key, topic name), and questions by (exam key, question text),
the key of `Question.objects.update_or_create(exam=.., question_text=..)`.
A question's choices are stored inline as (text, is_correct, order)
triples. -/

/-- The non-key columns of a `Question` row, plus its `Choice` rows. -/
structure QData where
  topic : Option Str
  question_type : QType
  difficulty : Diff
  explanation : Str
  points : Int
  order : Int
  is_active : Bool
  choices : List (Str × Bool × Nat)
deriving DecidableEq

/-- Key of a `Question`: ((category name, exam name), question text). -/
abbrev QKey := (Str × Str) × Str

/-- The slice of the relational state the importer touches. -/
structure DB where
  categories : List Str
  exams : List (Str × Str)
  topics : List ((Str × Str) × Str)
  questions : List (QKey × QData)
deriving DecidableEq

/-- The empty database. -/
def emptyDB : DB := ⟨[], [], [], []⟩

/-- `Category.objects.get_or_create(name=..)`. -/
def getOrCreateCategory (db : DB) (name : Str) : DB :=
  if db.categories.contains name then db
  else { db with categories := db.categories ++ [name] }

/-- `Exam.objects.get_or_create(category=.., name=..)`. -/
def getOrCreateExam (db : DB) (k : Str × Str) : DB :=
  if db.exams.contains k then db
  else { db with exams := db.exams ++ [k] }

/-- `Topic.objects.get_or_create(exam=.., name=..)`. -/
def getOrCreateTopic (db : DB) (k : (Str × Str) × Str) : DB :=
  if db.topics.contains k then db
  else { db with topics := db.topics ++ [k] }

/-- First question row with the given key, if any. -/
def lookupQ (db : DB) (k : QKey) : Option QData :=
  (db.questions.find? (fun e => e.1 == k)).map (fun e => e.2)

/-- Overwrite the data of every question row with the given key. -/
def updateQ (db : DB) (k : QKey) (d : QData) : DB :=
  { db with questions := db.questions.map (fun e => if e.1 == k then (k, d) else e) }

/-- Append a fresh question row. -/
def insertQ (db : DB) (k : QKey) (d : QData) : DB :=
  { db with questions := db.questions ++ [(k, d)] }

/-- `Question.objects.update_or_create(exam=.., question_text=..,
defaults=..)`: `d.choices` is ignored in favour of the existing rows
(the `Choice` table is untouched at this point).  Returns the new
state and the `created` flag. -/
def upsertQuestion (db : DB) (k : QKey) (d : QData) : DB × Bool :=
  match lookupQ db k with
  | some old => (updateQ db k { d with choices := old.choices }, false)
  | none => (insertQ db k { d with choices := [] }, true)

/-- `question.choices.all().delete()` followed by the `Choice.objects.create`
loop: replace the question's choices wholesale. -/
def setChoicesQ (db : DB) (k : QKey) (cs : List (Str × Bool × Nat)) : DB :=
  match lookupQ db k with
  | some q => updateQ db k { q with choices := cs }
  | none => db

/-- The `Choice` rows created at lines 588-596: one per element of
`choices_list`, `is_correct` iff the index was resolved, `order` the
index. -/
def buildChoices (cs : List Str) (correct : List Nat) : List (Str × Bool × Nat) :=
  (List.range cs.length).map (fun i => (cs.getD i [], correct.contains i, i))

/-- One mapped CSV row (`mapped_row`): the values of the standard
columns after the column-mapping step, with an absent column modelled
as the empty string (every downstream use treats the two alike), and
the values of the mapped `choice_1..choice_6` columns in order. -/
structure Row where
  category : Str := []
  exam : Str := []
  topic : Str := []
  question_text : Str := []
  question_type : Str := []
  difficulty : Str := []
  explanation : Str := []
  points : Str := []
  order : Str := []
  is_active : Str := []
  correct_answer : Str := []
  choices : Str := []
  choiceCols : List Str := []
deriving DecidableEq

/-- `if not any(row.values()): continue` — a row with no values. -/
def rowIsEmpty (r : Row) : Bool :=
  r.category.isEmpty && r.exam.isEmpty && r.topic.isEmpty && r.question_text.isEmpty &&
  r.question_type.isEmpty && r.difficulty.isEmpty && r.explanation.isEmpty &&
  r.points.isEmpty && r.order.isEmpty && r.is_active.isEmpty &&
  r.correct_answer.isEmpty && r.choices.isEmpty && r.choiceCols.all List.isEmpty

/-- Lines 378-386: the category name a row resolves to. -/
def derivedCategory (r : Row) : Str :=
  let c := stripS r.category
  removeBracketsS (if c.isEmpty then "General".data else c)

/-- Lines 389-393: the exam name a row resolves to (the empty-name
check happens before bracket removal). -/
def derivedExam (r : Row) : Str := removeBracketsS (stripS r.exam)

/-- Line 420: the question text a row resolves to. -/
def derivedQText (r : Row) : Str := removeBracketsS (stripS r.question_text)

/-- The `update_or_create` key a row resolves to. -/
def derivedKey (r : Row) : QKey := ((derivedCategory r, derivedExam r), derivedQText r)

/-- Lines 407-409: the optional topic name. -/
def derivedTopic (r : Row) : Option Str :=
  if (stripS r.topic).isEmpty then none
  else some (removeBracketsS (stripS r.topic))

/-- Lines 424-426: question type, defaulting to `single`. -/
def derivedQType (r : Row) : QType :=
  let t := lowerS (stripS r.question_type)
  if t = "multiple".data then QType.multiple
  else if t = "true_false".data then QType.true_false
  else QType.single

/-- Lines 428-430: difficulty, defaulting to `medium`. -/
def derivedDifficulty (r : Row) : Diff :=
  let t := lowerS (stripS r.difficulty)
  if t = "easy".data then Diff.easy
  else if t = "hard".data then Diff.hard
  else Diff.medium

/-- Line 433. -/
def derivedExplanation (r : Row) : Str := removeBracketsS (stripS r.explanation)

/-- Lines 436-440: `points`, default 1 (also on parse failure). -/
def derivedPoints (r : Row) : Int :=
  if (stripS r.points).isEmpty then 1 else (parseIntS r.points).getD 1

/-- Lines 443-447: `order`, default 0. -/
def derivedOrder (r : Row) : Int :=
  if (stripS r.order).isEmpty then 0 else (parseIntS r.order).getD 0

/-- Line 448: `is_active` truthiness (an absent column yields the
default `'true'`, a present-but-empty one yields `''`; both are
truthy here). -/
def derivedActive (r : Row) : Bool :=
  let t := lowerS (stripS r.is_active)
  t = "true".data || t = "1".data || t = "yes".data || t = "y".data || t = []

/-- Lines 466-481: the choice texts, from the discrete `choice_N`
columns when the file has them, else from the pipe-separated
`choices` column (whose entries are emptiness-checked *before*
bracket removal). -/
def derivedChoicesList (hasChoiceCols : Bool) (r : Row) : List Str :=
  if hasChoiceCols then
    r.choiceCols.filterMap (fun v =>
      if (stripS v).isEmpty then none
      else
        let t := removeBracketsS (stripS v)
        if t.isEmpty then none else some t)
  else
    let ct := stripS r.choices
    if ct.isEmpty then []
    else
      (splitOnS '|' (removeBracketsS ct)).filterMap (fun c =>
        if (stripS c).isEmpty then none else some (removeBracketsS (stripS c)))

/-- Lines 487-489: the cleaned `correct_answer` value. -/
def derivedAnswer (r : Row) : Str := removeBracketsS (stripS r.correct_answer)

/-- The fields `update_or_create` writes (`defaults=` at lines
454-462); the choices are filled in by `upsertQuestion`. -/
def derivedQData (r : Row) : QData :=
  { topic := derivedTopic r
    question_type := derivedQType r
    difficulty := derivedDifficulty r
    explanation := derivedExplanation r
    points := derivedPoints r
    order := derivedOrder r
    is_active := derivedActive r
    choices := [] }

/-- Result of `process_row`: the database afterwards (changes made
before a raised `ValueError` persist, there being no per-row
savepoint), the error if one was raised, the `created` flag and the
choice count of the returned dict. -/
structure RowResult where
  db : DB
  error : Option Str
  created : Bool
  choicesCount : Nat
deriving DecidableEq

/-- The category/exam/topic `get_or_create` calls of `process_row`
(lines 377-417). -/
def dbAfterRefs (db : DB) (r : Row) : DB :=
  let db1 := getOrCreateCategory db (derivedCategory r)
  let ek : Str × Str := (derivedCategory r, derivedExam r)
  let db2 := getOrCreateExam db1 ek
  match derivedTopic r with
  | some tn => getOrCreateTopic db2 (ek, tn)
  | none => db2

/-- `Command.process_row` (lines 375-601). -/
def processRow (hasChoiceCols : Bool) (db : DB) (r : Row) : RowResult :=
  if (stripS r.exam).isEmpty then
    ⟨getOrCreateCategory db (derivedCategory r), some "exam name cannot be empty".data,
     false, 0⟩
  else
    let db3 := dbAfterRefs db r
    if (derivedQText r).isEmpty then
      ⟨db3, some "question_text cannot be empty".data, false, 0⟩
    else
      let k : QKey := derivedKey r
      let up := upsertQuestion db3 k (derivedQData r)
      let cs := derivedChoicesList hasChoiceCols r
      if cs.isEmpty then
        ⟨up.1, some "At least one choice is required".data, up.2, 0⟩
      else
        let a := derivedAnswer r
        let idxs := resolveCorrectIndices (derivedQType r) (derivedQText r) cs a
        if idxs.isEmpty then
          ⟨up.1, some (couldNotDetermineMsg a cs), up.2, 0⟩
        else if idxs.any (fun i => cs.length ≤ i) then
          ⟨up.1, some "Invalid correct choice index".data, up.2, 0⟩
        else
          ⟨setChoicesQ up.1 k (buildChoices cs idxs), none, up.2, cs.length⟩

/-- The row loop of `process_csv_file` (lines 249-307): each row's
exception is caught, its message appended to `errors`, and processing
continues with the database state the row left behind. -/
def processRows (hasChoiceCols : Bool) (db : DB) (rows : List Row) : DB × List Str :=
  rows.foldl
    (fun acc r =>
      if rowIsEmpty r then acc
      else
        let res := processRow hasChoiceCols acc.1 r
        match res.error with
        | some e => (res.db, acc.2 ++ [e])
        | none => (res.db, acc.2))
    (db, [])

/-- Where the CSV file ends up. -/
inductive FileDest where
  | processed
  | failed
deriving DecidableEq, Repr

/-- `process_csv_file` from the row loop on (lines 249-345): the row
loop runs inside `with transaction.atomic()`, but because every row
exception is caught *inside* that block, the block always exits
normally and the transaction commits in the error case too; the value
is (committed database, folder the file is moved to, error-log
lines). -/
def processCsvFile (hasChoiceCols : Bool) (db : DB) (rows : List Row) :
    DB × FileDest × List Str :=
  let folded := processRows hasChoiceCols db rows
  if folded.2.isEmpty then (folded.1, FileDest.processed, [])
  else (folded.1, FileDest.failed, folded.2)

/-- Number of question rows with the given key. -/
def countQ (db : DB) (k : QKey) : Nat :=
  (db.questions.filter (fun e => e.1 == k)).length

/-! ## Concrete inputs used for witnesses and counterexamples -/

/-- The spec's own example row: `category=Math, exam=Basic Test,
question_text=2+2?, choice_1=3, choice_2=4, correct_answer=4`. -/
def rowMathA : Row :=
  { category := "Math".data, exam := "Basic Test".data, question_text := "2+2?".data,
    correct_answer := "4".data, choiceCols := ["3".data, "4".data] }

/-- A row whose `correct_answer` matches no resolution heuristic. -/
def rowMathBad : Row :=
  { category := "Math".data, exam := "Basic Test".data, question_text := "3+3?".data,
    correct_answer := "zzz".data, choiceCols := ["1".data, "2".data] }

/-- A re-import of the `rowMathA` question (same exam and question
text) with different type, difficulty and choices. -/
def rowMathA2 : Row :=
  { category := "Math".data, exam := "Basic Test".data, question_text := "2+2?".data,
    correct_answer := "1".data, choiceCols := ["4".data, "5".data, "6".data],
    question_type := "multiple".data, difficulty := "hard".data }

/-- The database after importing `rowMathA` into an empty database. -/
def dbAfterA : DB := (processRow true emptyDB rowMathA).db

/-- The question row `rowMathA` creates. -/
def qDataAfterA : QData :=
  { topic := none, question_type := QType.single, difficulty := Diff.medium,
    explanation := [], points := 1, order := 0, is_active := true,
    choices := [("3".data, false, 0), ("4".data, true, 1)] }

/-! ### Lemmas about the string machinery -/

theorem startsWithS_iff (n : Str) : ∀ h : Str, startsWithS n h = true ↔ ∃ t, h = n ++ t := by
  induction n with
  | nil =>
    intro h
    simp [startsWithS]
  | cons a as ih =>
    intro h
    cases h with
    | nil =>
      simp [startsWithS]
    | cons b bs =>
      simp only [startsWithS, Bool.and_eq_true, decide_eq_true_eq, ih]
      constructor
      · rintro ⟨rfl, t, rfl⟩
        exact ⟨t, rfl⟩
      · rintro ⟨t, ht⟩
        rw [List.cons_append] at ht
        obtain ⟨h1, h2⟩ := List.cons.injEq .. ▸ ht
        exact ⟨h1.symm, t, h2⟩

theorem containsS_iff (n : Str) : ∀ h : Str, containsS n h = true ↔ ∃ p q, h = p ++ n ++ q := by
  intro h
  induction h with
  | nil =>
    simp only [containsS, List.isEmpty_iff]
    constructor
    · rintro rfl
      exact ⟨[], [], rfl⟩
    · rintro ⟨p, q, hpq⟩
      rcases List.append_eq_nil.mp (List.append_eq_nil.mp hpq.symm).1 with ⟨_, hn⟩
      exact hn
  | cons c rest ih =>
    simp only [containsS, Bool.or_eq_true, startsWithS_iff, ih]
    constructor
    · rintro (⟨t, ht⟩ | ⟨p, q, hpq⟩)
      · exact ⟨[], t, by simp [ht]⟩
      · exact ⟨c :: p, q, by simp [hpq]⟩
    · rintro ⟨p, q, hpq⟩
      cases p with
      | nil =>
        exact Or.inl ⟨q, by simpa using hpq⟩
      | cons x xs =>
        rw [List.cons_append, List.cons_append] at hpq
        obtain ⟨-, h2⟩ := List.cons.injEq .. ▸ hpq
        exact Or.inr ⟨xs, q, h2⟩

theorem containsS_self (l : Str) : containsS l l = true :=
  (containsS_iff l l).mpr ⟨[], [], by simp⟩

theorem containsS_of_eq {l₁ l₂ : Str} (h : l₁ = l₂) : containsS l₁ l₂ = true := by
  subst h; exact containsS_self l₁

theorem containsS_sandwich (n pre suf : Str) : containsS n (pre ++ n ++ suf) = true :=
  (containsS_iff n _).mpr ⟨pre, suf, rfl⟩

theorem containsS_append_left {n s : Str} (pre : Str) (h : containsS n s = true) :
    containsS n (pre ++ s) = true := by
  obtain ⟨p, q, rfl⟩ := (containsS_iff n s).mp h
  exact (containsS_iff n _).mpr ⟨pre ++ p, q, by simp⟩

theorem containsS_append_right {n s : Str} (suf : Str) (h : containsS n s = true) :
    containsS n (s ++ suf) = true := by
  obtain ⟨p, q, rfl⟩ := (containsS_iff n s).mp h
  exact (containsS_iff n _).mpr ⟨p, q ++ suf, by simp⟩

theorem mem_dropWhile_of_mem {c : Char} {p : Char → Bool} :
    ∀ {l : Str}, c ∈ l → p c = false → c ∈ l.dropWhile p := by
  intro l
  induction l with
  | nil => intro h; exact absurd h (List.not_mem_nil c)
  | cons x xs ih =>
    intro hmem hpc
    rw [List.dropWhile_cons]
    by_cases hx : p x = true
    · simp only [hx, if_true]
      rcases List.mem_cons.mp hmem with rfl | hxs
      · rw [hx] at hpc; cases hpc
      · exact ih hxs hpc
    · simp only [Bool.not_eq_true] at hx
      simp [hx, hmem]

theorem mem_stripS_of_mem {c : Char} {l : Str} (hmem : c ∈ l)
    (hws : c.isWhitespace = false) : c ∈ stripS l := by
  unfold stripS
  rw [List.mem_reverse]
  apply mem_dropWhile_of_mem _ hws
  rw [List.mem_reverse]
  exact mem_dropWhile_of_mem hmem hws

theorem not_pipe_of_parseIntS {s : Str} {n : Int} (h : parseIntS s = some n) :
    '|' ∉ s := by
  intro hmem
  have hmem' : '|' ∈ stripS s := mem_stripS_of_mem hmem (by decide)
  have hnd : ∀ r : Str, '|' ∈ r → allDigits r = true → False := by
    intro r hr hd
    have h3 := List.all_eq_true.mp ((Bool.and_eq_true ..).mp hd).2 _ hr
    simp only [decide_eq_true_eq] at h3
    exact absurd h3 (by decide)
  unfold parseIntS at h
  by_cases h1 : allDigits (stripS s) = true
  · exact hnd _ hmem' h1
  · rw [if_neg h1] at h
    by_cases h2 : (startsWithS ['-'] (stripS s) && allDigits ((stripS s).drop 1)) = true
    · obtain ⟨hsw, hd⟩ := (Bool.and_eq_true ..).mp h2
      obtain ⟨r, hr⟩ := (startsWithS_iff _ _).mp hsw
      rw [hr] at hmem'
      rcases List.mem_cons.mp hmem' with he | hm
      · exact absurd he (by decide)
      · exact hnd _ hm (by rw [hr] at hd; simpa using hd)
    · rw [if_neg h2] at h
      by_cases h3 : (startsWithS ['+'] (stripS s) && allDigits ((stripS s).drop 1)) = true
      · obtain ⟨hsw, hd⟩ := (Bool.and_eq_true ..).mp h3
        obtain ⟨r, hr⟩ := (startsWithS_iff _ _).mp hsw
        rw [hr] at hmem'
        rcases List.mem_cons.mp hmem' with he | hm
        · exact absurd he (by decide)
        · exact hnd _ hm (by rw [hr] at hd; simpa using hd)
      · rw [if_neg h3] at h
        cases h

theorem splitOnS_ne_nil (sep : Char) : ∀ l : Str, splitOnS sep l ≠ [] := by
  intro l
  induction l with
  | nil => simp [splitOnS]
  | cons c rest ih =>
    unfold splitOnS
    by_cases h : c = sep
    · simp [h]
    · simp only [h, if_false]
      cases hs : splitOnS sep rest with
      | nil => exact absurd hs ih
      | cons p ps => simp

theorem splitOnS_of_not_mem {sep : Char} : ∀ {l : Str}, sep ∉ l → splitOnS sep l = [l] := by
  intro l
  induction l with
  | nil => intro _; rfl
  | cons c rest ih =>
    intro h
    have hc : ¬(c = sep) := fun hcs => h (hcs ▸ List.mem_cons_self c rest)
    have hrest : sep ∉ rest := fun hr => h (List.mem_cons_of_mem c hr)
    unfold splitOnS
    simp only [hc, if_false, ih hrest]

theorem exists_mem_splitOnS {c sep : Char} : ∀ {l : Str}, c ∈ l → c ≠ sep →
    ∃ p ∈ splitOnS sep l, c ∈ p := by
  intro l
  induction l with
  | nil => intro h; exact absurd h (List.not_mem_nil c)
  | cons x xs ih =>
    intro hmem hne
    by_cases hx : x = sep
    · subst hx
      have hxs : c ∈ xs := by
        rcases List.mem_cons.mp hmem with rfl | h
        · exact absurd rfl hne
        · exact h
      obtain ⟨p, hp, hcp⟩ := ih hxs hne
      refine ⟨p, ?_, hcp⟩
      unfold splitOnS
      simp [hp]
    · unfold splitOnS
      simp only [hx, if_false]
      cases hs : splitOnS sep xs with
      | nil => exact absurd hs (splitOnS_ne_nil sep xs)
      | cons p ps =>
        rcases List.mem_cons.mp hmem with rfl | hxs
        · exact ⟨c :: p, List.mem_cons_self _ _, List.mem_cons_self _ _⟩
        · obtain ⟨q, hq, hcq⟩ := ih hxs hne
          rw [hs] at hq
          rcases List.mem_cons.mp hq with rfl | hqs
          · exact ⟨x :: q, List.mem_cons_self _ _, List.mem_cons_of_mem _ hcq⟩
          · exact ⟨q, List.mem_cons_of_mem _ hqs, hcq⟩

/-! ### Lemmas about the question table -/

theorem questions_getOrCreateCategory (db : DB) (n : Str) :
    (getOrCreateCategory db n).questions = db.questions := by
  unfold getOrCreateCategory
  split <;> rfl

theorem questions_getOrCreateExam (db : DB) (k : Str × Str) :
    (getOrCreateExam db k).questions = db.questions := by
  unfold getOrCreateExam
  split <;> rfl

theorem questions_getOrCreateTopic (db : DB) (k : (Str × Str) × Str) :
    (getOrCreateTopic db k).questions = db.questions := by
  unfold getOrCreateTopic
  split <;> rfl

theorem questions_dbAfterRefs (db : DB) (r : Row) :
    (dbAfterRefs db r).questions = db.questions := by
  unfold dbAfterRefs
  cases derivedTopic r <;>
    simp [questions_getOrCreateTopic, questions_getOrCreateExam, questions_getOrCreateCategory]

theorem lookupQ_congr {db1 db2 : DB} (h : db1.questions = db2.questions) (k : QKey) :
    lookupQ db1 k = lookupQ db2 k := by
  unfold lookupQ
  rw [h]

theorem countQ_congr {db1 db2 : DB} (h : db1.questions = db2.questions) (k : QKey) :
    countQ db1 k = countQ db2 k := by
  unfold countQ
  rw [h]

theorem findMap_update_self {k : QKey} {old : QData} (d : QData) :
    ∀ {l : List (QKey × QData)},
      (l.find? (fun e => e.1 == k)).map (fun e => e.2) = some old →
      ((l.map (fun e => if e.1 == k then (k, d) else e)).find?
        (fun e => e.1 == k)).map (fun e => e.2) = some d := by
  intro l
  induction l with
  | nil => intro h; simp at h
  | cons e rest ih =>
    intro h
    by_cases he : (e.1 == k) = true
    · rw [List.map_cons, if_pos he, List.find?_cons_of_pos _ (by simp)]
      rfl
    · rw [List.find?_cons_of_neg _ (by simpa using he)] at h
      rw [List.map_cons, if_neg he, List.find?_cons_of_neg _ (by simpa using he)]
      exact ih h

theorem findMap_update_ne {k k2 : QKey} (d : QData) (hk : k2 ≠ k) :
    ∀ l : List (QKey × QData),
      ((l.map (fun e => if e.1 == k then (k, d) else e)).find?
        (fun e => e.1 == k2)).map (fun e => e.2) =
      (l.find? (fun e => e.1 == k2)).map (fun e => e.2) := by
  intro l
  induction l with
  | nil => rfl
  | cons e rest ih =>
    rw [List.map_cons]
    by_cases he : (e.1 == k) = true
    · have he' : e.1 = k := eq_of_beq he
      have hf : (k == k2) = false := beq_eq_false_iff_ne.mpr (fun hr => hk hr.symm)
      rw [if_pos he]
      simp only [List.find?_cons, hf, he', ih]
    · rw [if_neg he]
      by_cases he2 : (e.1 == k2) = true
      · simp only [List.find?_cons, he2]
      · have he2' : (e.1 == k2) = false := by simpa using he2
        simp only [List.find?_cons, he2', ih]

theorem countFilter_update (k : QKey) (d : QData) (k2 : QKey) :
    ∀ l : List (QKey × QData),
      ((l.map (fun e => if e.1 == k then (k, d) else e)).filter
        (fun e => e.1 == k2)).length =
      (l.filter (fun e => e.1 == k2)).length := by
  intro l
  induction l with
  | nil => rfl
  | cons e rest ih =>
    rw [List.map_cons]
    by_cases he : (e.1 == k) = true
    · have he' : e.1 = k := eq_of_beq he
      rw [if_pos he]
      by_cases hk2 : (k == k2) = true
      · simp only [List.filter_cons, hk2, he', if_true, List.length_cons, ih]
      · have hk2' : (k == k2) = false := by simpa using hk2
        simp only [List.filter_cons, hk2', he', Bool.false_eq_true, if_false, ih]
    · rw [if_neg he]
      by_cases he2 : (e.1 == k2) = true
      · simp only [List.filter_cons, he2, if_true, List.length_cons, ih]
      · have he2' : (e.1 == k2) = false := by simpa using he2
        simp only [List.filter_cons, he2', Bool.false_eq_true, if_false, ih]

theorem lookupQ_updateQ_self {db : DB} {k : QKey} {old : QData} (d : QData)
    (h : lookupQ db k = some old) : lookupQ (updateQ db k d) k = some d :=
  findMap_update_self d h

theorem lookupQ_updateQ_ne {db : DB} {k k2 : QKey} (d : QData) (hk : k2 ≠ k) :
    lookupQ (updateQ db k d) k2 = lookupQ db k2 :=
  findMap_update_ne d hk db.questions

theorem countQ_updateQ (db : DB) (k : QKey) (d : QData) (k2 : QKey) :
    countQ (updateQ db k d) k2 = countQ db k2 :=
  countFilter_update k d k2 db.questions

theorem length_updateQ (db : DB) (k : QKey) (d : QData) :
    (updateQ db k d).questions.length = db.questions.length := by
  unfold updateQ
  simp

/-! ## Claim C7: re-importing a question updates it in place -/

/-- C7: when `process_row` succeeds on a row whose (category, exam,
question text) key already has a question, the question is updated in
place — `created` is false, no duplicate row appears, every non-key
field is overwritten from the row, the choices are exactly those built
from this import, and no other question is touched. -/
theorem import_same_key_updates (hasCC : Bool) (db : DB) (r : Row) (old : QData)
    (hlook : lookupQ db (derivedKey r) = some old)
    (hok : (processRow hasCC db r).error = none) :
    (processRow hasCC db r).created = false ∧
    (processRow hasCC db r).db.questions.length = db.questions.length ∧
    countQ (processRow hasCC db r).db (derivedKey r) = countQ db (derivedKey r) ∧
    lookupQ (processRow hasCC db r).db (derivedKey r) =
      some { derivedQData r with
               choices := buildChoices (derivedChoicesList hasCC r)
                 (resolveCorrectIndices (derivedQType r) (derivedQText r)
                   (derivedChoicesList hasCC r) (derivedAnswer r)) } ∧
    (∀ k2 : QKey, k2 ≠ derivedKey r →
      lookupQ (processRow hasCC db r).db k2 = lookupQ db k2) := by
  have hq3 := questions_dbAfterRefs db r
  have hlook3 : lookupQ (dbAfterRefs db r) (derivedKey r) = some old :=
    (lookupQ_congr hq3 _).trans hlook
  have hup : upsertQuestion (dbAfterRefs db r) (derivedKey r) (derivedQData r) =
      (updateQ (dbAfterRefs db r) (derivedKey r)
        { derivedQData r with choices := old.choices }, false) := by
    unfold upsertQuestion
    rw [hlook3]
  by_cases b1 : (stripS r.exam).isEmpty
  · rw [processRow, if_pos b1] at hok
    cases hok
  · by_cases b2 : (derivedQText r).isEmpty
    · rw [processRow, if_neg b1, if_pos b2] at hok
      cases hok
    · by_cases b3 : (derivedChoicesList hasCC r).isEmpty
      · rw [processRow, if_neg b1, if_neg b2, if_pos b3] at hok
        cases hok
      · by_cases b4 : (resolveCorrectIndices (derivedQType r) (derivedQText r)
            (derivedChoicesList hasCC r) (derivedAnswer r)).isEmpty
        · rw [processRow, if_neg b1, if_neg b2, if_neg b3, if_pos b4] at hok
          cases hok
        · by_cases b5 : (resolveCorrectIndices (derivedQType r) (derivedQText r)
              (derivedChoicesList hasCC r) (derivedAnswer r)).any
                (fun i => (derivedChoicesList hasCC r).length ≤ i)
          · rw [processRow, if_neg b1, if_neg b2, if_neg b3, if_neg b4, if_pos b5] at hok
            cases hok
          · have hpr : processRow hasCC db r =
                ⟨setChoicesQ (updateQ (dbAfterRefs db r) (derivedKey r)
                    { derivedQData r with choices := old.choices }) (derivedKey r)
                  (buildChoices (derivedChoicesList hasCC r)
                    (resolveCorrectIndices (derivedQType r) (derivedQText r)
                      (derivedChoicesList hasCC r) (derivedAnswer r))),
                 none, false, (derivedChoicesList hasCC r).length⟩ := by
              rw [processRow, if_neg b1, if_neg b2]
              simp only [hup, if_neg b3, if_neg b4, if_neg b5]
            have hmid : lookupQ (updateQ (dbAfterRefs db r) (derivedKey r)
                { derivedQData r with choices := old.choices }) (derivedKey r) =
                some { derivedQData r with choices := old.choices } :=
              lookupQ_updateQ_self _ hlook3
            have hset : setChoicesQ (updateQ (dbAfterRefs db r) (derivedKey r)
                { derivedQData r with choices := old.choices }) (derivedKey r)
                (buildChoices (derivedChoicesList hasCC r)
                  (resolveCorrectIndices (derivedQType r) (derivedQText r)
                    (derivedChoicesList hasCC r) (derivedAnswer r))) =
                updateQ (updateQ (dbAfterRefs db r) (derivedKey r)
                  { derivedQData r with choices := old.choices }) (derivedKey r)
                  { derivedQData r with
                      choices := buildChoices (derivedChoicesList hasCC r)
                        (resolveCorrectIndices (derivedQType r) (derivedQText r)
                          (derivedChoicesList hasCC r) (derivedAnswer r)) } := by
              unfold setChoicesQ
              rw [hmid]
            rw [hpr]
            refine ⟨rfl, ?_, ?_, ?_, ?_⟩
            · simp only [hset, length_updateQ]
              rw [hq3]
            · simp only [hset, countQ_updateQ]
              exact countQ_congr hq3 _
            · simp only [hset]
              exact lookupQ_updateQ_self _ hmid
            · intro k2 hk2
              simp only [hset]
              rw [lookupQ_updateQ_ne _ hk2, lookupQ_updateQ_ne _ hk2]
              exact lookupQ_congr hq3 _

/-- Witness for C7: re-importing the `rowMathA` question via
`rowMathA2` updates it in place. -/
theorem import_same_key_updates_witness :
    lookupQ dbAfterA (derivedKey rowMathA2) = some qDataAfterA ∧
    (processRow true dbAfterA rowMathA2).created = false ∧
    (processRow true dbAfterA rowMathA2).db.questions.length =
      dbAfterA.questions.length := by
  have h := import_same_key_updates true dbAfterA rowMathA2 qDataAfterA
    (by decide) (by decide)
  exact ⟨by decide, h.1, h.2.1⟩

/-! ### Lemmas about the resolution cascade -/

theorem eCondFull_eq_eCondPart (p c : Str) : eCondFull p c = eCondPart p c := by
  unfold eCondFull eCondPart
  by_cases h : p = c
  · subst h
    simp [containsS_self]
  · have hb : (p == c) = false := beq_eq_false_iff_ne.mpr h
    simp [hb]

theorem hPipeText_eq_hPipeText2 (cs : List Str) (a : Str) :
    hPipeText cs a = hPipeText2 cs a := by
  unfold hPipeText hPipeText2
  simp only [eCondFull_eq_eCondPart]

theorem bMatches_eq_nil {qt : QType} {cs : List Str} {a : Str}
    (h : hContain qt cs a = []) : bMatches cs a = [] := by
  unfold hContain at h
  split at h
  · rcases List.take_eq_nil_iff.mp h with h1 | h1
    · cases h1
    · exact h1
  · exact h

theorem hPipeText_nil_of_no_contain {qt : QType} {cs : List Str} {a : Str}
    (hb : hContain qt cs a = []) (hp : '|' ∉ a) : hPipeText cs a = [] := by
  have hbm := bMatches_eq_nil hb
  have hAll : ∀ i ∈ List.range cs.length, ¬bCond a (cs.getD i []) = true :=
    List.filter_eq_nil_iff.mp hbm
  unfold hPipeText
  apply List.filter_eq_nil_iff.mpr
  intro i hi
  unfold ePieces
  rw [splitOnS_of_not_mem hp]
  by_cases hae : (lowerS (stripS a)).isEmpty
  · simp [hae]
  · have hae' : (!(lowerS (stripS a)).isEmpty) = true := by simp [hae]
    simp only [List.map_cons, List.map_nil, List.filter_cons, hae', if_true,
      List.filter_nil, List.any_cons, List.any_nil, Bool.or_false]
    have hbc : ¬bCond a (cs.getD i []) = true := hAll i hi
    unfold bCond at hbc
    unfold eCondFull
    intro hcontra
    apply hbc
    simp only [Bool.or_eq_true]
    rcases Bool.or_eq_true .. |>.mp hcontra with hor | h3
    · rcases Bool.or_eq_true .. |>.mp hor with heq | h1
      · exact Or.inl (containsS_of_eq (eq_of_beq heq))
      · exact Or.inl h1
    · exact Or.inr h3

theorem parseAllInts_mem :
    ∀ {l : List Str} {ms : List Int}, parseAllInts l = some ms →
      ∀ p ∈ l, ∃ m, parseIntS p = some m := by
  intro l
  induction l with
  | nil =>
    intro ms _ p hp
    exact absurd hp (List.not_mem_nil p)
  | cons x xs ih =>
    intro ms h p hp
    unfold parseAllInts at h
    cases hx : parseIntS x with
    | none => rw [hx] at h; cases h
    | some m =>
      cases hxs : parseAllInts xs with
      | none => rw [hx, hxs] at h; cases h
      | some ms2 =>
        rcases List.mem_cons.mp hp with rfl | hpm
        · exact ⟨m, hx⟩
        · exact ih hxs p hpm

theorem no_pipe_of_comma_parse {a : Str} {ms : List Int}
    (h : parseAllInts (splitOnS ',' a) = some ms) : '|' ∉ a := by
  intro hp
  obtain ⟨p, hpmem, hppipe⟩ := exists_mem_splitOnS hp (show ('|' : Char) ≠ ',' by decide)
  obtain ⟨m, hm⟩ := parseAllInts_mem h p hpmem
  exact not_pipe_of_parseIntS hm hppipe

theorem parse_of_pipe_parse_no_pipe {a : Str} {ms : List Int}
    (h : parseAllInts (splitOnS '|' a) = some ms) (hp : '|' ∉ a) :
    ∃ m, parseIntS a = some m := by
  rw [splitOnS_of_not_mem hp] at h
  exact parseAllInts_mem h a (List.mem_singleton.mpr rfl)

theorem containsS_pyStrRepr (c : Str) : containsS c (pyStrRepr c) = true := by
  unfold pyStrRepr
  exact (containsS_iff c _).mpr ⟨['\''], ['\''], by simp⟩

theorem containsS_joinComma {c : Str} :
    ∀ {cs : List Str}, c ∈ cs → containsS c (joinCommaS (cs.map pyStrRepr)) = true := by
  intro cs
  induction cs with
  | nil =>
    intro h
    exact absurd h (List.not_mem_nil c)
  | cons x xs ih =>
    intro h
    cases xs with
    | nil =>
      have hcx : c = x := by simpa using h
      subst hcx
      exact containsS_pyStrRepr c
    | cons y ys =>
      rcases List.mem_cons.mp h with rfl | hxs
      · exact containsS_append_right _ (containsS_pyStrRepr c)
      · exact containsS_append_left _ (containsS_append_left _ (ih hxs))

theorem containsS_msg_answer (a : Str) (cs : List Str) :
    containsS a (couldNotDetermineMsg a cs) = true :=
  (containsS_iff a _).mpr
    ⟨"Could not determine correct answer. Provided: \"".data,
     "\". Choices: ".data ++ pyListRepr cs, by simp [couldNotDetermineMsg]⟩

theorem containsS_msg_choice (a : Str) (cs : List Str) :
    ∀ c ∈ cs, containsS c (couldNotDetermineMsg a cs) = true := by
  intro c hc
  have h1 : containsS c (pyListRepr cs) = true := by
    unfold pyListRepr
    have h2 := containsS_joinComma hc
    have h3 : containsS c (joinCommaS (cs.map pyStrRepr) ++ [']']) = true :=
      containsS_append_right _ h2
    exact containsS_append_left ['['] h3
  unfold couldNotDetermineMsg
  exact containsS_append_left _ h1

/-! ## Claim C4: the resolution cascade follows the spec's order -/

/-- C4: for a non-empty `correct_answer` value, the importer's
resolution logic coincides with the specification's reading — try
(a) exact match, (b) containment, (c) in-question-text, (d) numeric
index, (e) pipe-separated fuzzy texts strictly in that order and stop
at the first heuristic producing at least one index — and when no
heuristic yields an index the row fails with an error message that
contains the provided value and every available choice. -/
theorem resolve_follows_spec_order (qt : QType) (qtext : Str) (cs : List Str) (a : Str)
    (ha : a ≠ []) :
    resolveCorrectIndices qt qtext cs a = specResolve qt qtext cs a ∧
    (resolveCorrectIndices qt qtext cs a = [] →
      containsS a (couldNotDetermineMsg a cs) = true ∧
      ∀ c ∈ cs, containsS c (couldNotDetermineMsg a cs) = true) := by
  refine ⟨?_, fun _ => ⟨containsS_msg_answer a cs, containsS_msg_choice a cs⟩⟩
  have ha' : a.isEmpty = false := by simpa [List.isEmpty_iff] using ha
  unfold resolveCorrectIndices specResolve
  simp only [firstNonEmpty, ha', Bool.false_eq_true, if_false]
  by_cases h1 : (hExact cs a).isEmpty
  · simp only [h1, Bool.not_true, Bool.false_eq_true, if_false, if_true]
    by_cases h2 : (hContain qt cs a).isEmpty
    · simp only [h2, Bool.not_true, Bool.false_eq_true, if_false, if_true]
      have hcont : hContain qt cs a = [] := List.isEmpty_iff.mp h2
      by_cases h3 : (hInQuestion qtext cs a).isEmpty
      · simp only [h3, Bool.not_true, Bool.false_eq_true, if_false, if_true]
        cases hp : parseIntS a with
        | some m =>
          simp only [hNumeric, hp]
          by_cases hr : 1 ≤ m ∧ m ≤ (cs.length : Int)
          · simp [hr]
          · have hnp : '|' ∉ a := not_pipe_of_parseIntS hp
            have hpt : hPipeText cs a = [] := hPipeText_nil_of_no_contain hcont hnp
            simp [hr, hpt, hnp]
        | none =>
          simp only [hNumeric, hp]
          cases hc : parseAllInts (splitOnS ',' a) with
          | some ms =>
            simp only [hc]
            by_cases hf : (filterIdx cs.length ms).isEmpty
            · have hnp : '|' ∉ a := no_pipe_of_comma_parse hc
              have hpt : hPipeText cs a = [] := hPipeText_nil_of_no_contain hcont hnp
              simp [hf, hpt, hnp, List.isEmpty_iff.mp hf]
            · simp [hf]
          | none =>
            simp only [hc]
            cases hpp : parseAllInts (splitOnS '|' a) with
            | some ms =>
              simp only [hpp]
              by_cases hf : (filterIdx cs.length ms).isEmpty
              · by_cases hmem : '|' ∈ a
                · have heq2 := hPipeText_eq_hPipeText2 cs a
                  by_cases hEe : (hPipeText cs a).isEmpty
                  · simp [hf, hmem, ← heq2, List.isEmpty_iff.mp hEe]
                  · simp [hf, hmem, hEe, ← heq2]
                · obtain ⟨m, hm⟩ := parse_of_pipe_parse_no_pipe hpp hmem
                  rw [hp] at hm
                  cases hm
              · simp [hf]
            | none =>
              have heq2 := hPipeText_eq_hPipeText2 cs a
              by_cases hEe : (hPipeText cs a).isEmpty
              · by_cases hmem : '|' ∈ a
                · simp [hEe, hmem, ← heq2, List.isEmpty_iff.mp hEe]
                · simp [hEe, hmem, List.isEmpty_iff.mp hEe]
              · simp [hEe]
      · simp [h3]
    · simp [h2]
  · simp [h1]

/-- Witness for C4 at a concrete row: answer `zzz` against choices
`5`, `6` resolves through no heuristic on either side, and the error
message names the value. -/
theorem resolve_follows_spec_order_witness :
    ("zzz".data : Str) ≠ [] ∧
    resolveCorrectIndices QType.single "q".data ["5".data, "6".data] "zzz".data =
      specResolve QType.single "q".data ["5".data, "6".data] "zzz".data ∧
    containsS "zzz".data (couldNotDetermineMsg "zzz".data ["5".data, "6".data]) = true := by
  have h := resolve_follows_spec_order QType.single "q".data ["5".data, "6".data]
    "zzz".data (by decide)
  exact ⟨by decide, h.1, (h.2 (by decide)).1⟩

/-! ## Claim C1: transaction semantics of a CSV file

The row loop sits inside `with transaction.atomic()`, but every row
exception is caught *inside* the block (lines 255-307), so the block
always exits normally and the transaction commits whether or not rows
failed.  A file with a bad row is still moved to `failed` with a
non-empty error log, yet the changes of its good rows — and the
partial changes of the bad row made before its exception — persist. -/

/-- Counterexample to C1 as stated: in a two-row file whose second row
has an unresolvable `correct_answer`, the file is moved to the failed
folder with a non-empty error log, yet the committed database contains
the first row's question (absent beforehand) with its choices, and
even the failed row's partially-created question. -/
theorem import_commits_despite_row_error :
    (processCsvFile true emptyDB [rowMathA, rowMathBad]).2.1 = FileDest.failed ∧
    (processCsvFile true emptyDB [rowMathA, rowMathBad]).2.2 ≠ [] ∧
    lookupQ emptyDB (("Math".data, "Basic Test".data), "2+2?".data) = none ∧
    lookupQ (processCsvFile true emptyDB [rowMathA, rowMathBad]).1
      (("Math".data, "Basic Test".data), "2+2?".data) = some qDataAfterA ∧
    lookupQ (processCsvFile true emptyDB [rowMathA, rowMathBad]).1
      (("Math".data, "Basic Test".data), "3+3?".data) =
      some { topic := none, question_type := QType.single, difficulty := Diff.medium,
             explanation := [], points := 1, order := 0, is_active := true,
             choices := [] } := by
  refine ⟨by decide, by decide, by decide, by decide, by decide⟩

/-- C1 as amended: all rows of a file run inside one transaction, but
that transaction commits even when rows fail, because per-row
exceptions are caught inside the atomic block.  A file with at least
one row error is moved to the failed folder with a non-empty error
log, a clean file to the processed folder — and in *both* cases the
committed database is the same sequential fold of per-row processing
(successful rows persist despite the failure of others). -/
theorem import_file_outcome (hasCC : Bool) (db : DB) (rows : List Row) :
    ((processRows hasCC db rows).2 = [] →
      processCsvFile hasCC db rows =
        ((processRows hasCC db rows).1, FileDest.processed, [])) ∧
    ((processRows hasCC db rows).2 ≠ [] →
      processCsvFile hasCC db rows =
        ((processRows hasCC db rows).1, FileDest.failed,
          (processRows hasCC db rows).2)) := by
  unfold processCsvFile
  by_cases h : (processRows hasCC db rows).2.isEmpty
  · have he : (processRows hasCC db rows).2 = [] := List.isEmpty_iff.mp h
    exact ⟨fun _ => by rw [if_pos h], fun hne => absurd he hne⟩
  · have hne : (processRows hasCC db rows).2 ≠ [] := fun he =>
      h (List.isEmpty_iff.mpr he)
    exact ⟨fun he => absurd he hne, fun _ => by rw [if_neg h]⟩

/-- Witness for the amended C1, at a clean one-row file and at the
two-row file with a failing second row. -/
theorem import_file_outcome_witness :
    (processRows true emptyDB [rowMathA]).2 = [] ∧
    processCsvFile true emptyDB [rowMathA] =
      ((processRows true emptyDB [rowMathA]).1, FileDest.processed, []) ∧
    (processRows true emptyDB [rowMathA, rowMathBad]).2 ≠ [] ∧
    processCsvFile true emptyDB [rowMathA, rowMathBad] =
      ((processRows true emptyDB [rowMathA, rowMathBad]).1, FileDest.failed,
        (processRows true emptyDB [rowMathA, rowMathBad]).2) :=
  ⟨by decide, (import_file_outcome true emptyDB [rowMathA]).1 (by decide),
   by decide, (import_file_outcome true emptyDB [rowMathA, rowMathBad]).2 (by decide)⟩

/-! ## Claim C2: answer-correctness rules -/

/-- C2: for `single` and `true_false` questions `check_answer` stores
true iff exactly one choice is selected and the selected-choice set
equals the correct-choice set; for `multiple` questions it stores true
iff the selected-choice set equals the correct-choice set exactly. -/
theorem check_answer_rules (correct selected : Finset Nat) :
    (check_answer QType.single correct selected = true ↔
      selected.card = 1 ∧ selected = correct) ∧
    (check_answer QType.true_false correct selected = true ↔
      selected.card = 1 ∧ selected = correct) ∧
    (check_answer QType.multiple correct selected = true ↔ selected = correct) := by
  refine ⟨?_, ?_, ?_⟩ <;> simp [check_answer]

/-! ## Claims C3 and C10: score calculation -/

/-- C3: when the exam has at least one active question, the score after
`calculate_score` (and hence after every completion via `complete_quiz`
and every result view via `quiz_result`) is correct answers divided by
the *current* active-question count, times 100. -/
theorem score_is_percentage (now : ℚ) (env : ScoreEnv) (s : Session)
    (h : 0 < env.activeQuestionCount) :
    (calculate_score env s).2.score =
      (env.correctAnswerCount : ℚ) / (env.activeQuestionCount : ℚ) * 100 ∧
    (calculate_score env s).1 =
      (env.correctAnswerCount : ℚ) / (env.activeQuestionCount : ℚ) * 100 ∧
    (complete_quiz now env s).score =
      (env.correctAnswerCount : ℚ) / (env.activeQuestionCount : ℚ) * 100 ∧
    (quizResult now env s).score =
      (env.correctAnswerCount : ℚ) / (env.activeQuestionCount : ℚ) * 100 := by
  have hne : env.activeQuestionCount ≠ 0 := Nat.pos_iff_ne_zero.mp h
  have base : ∀ t : Session,
      (calculate_score env t).2.score =
        (env.correctAnswerCount : ℚ) / (env.activeQuestionCount : ℚ) * 100 := by
    intro t
    simp [calculate_score, hne]
  have base1 : (calculate_score env s).1 =
      (env.correctAnswerCount : ℚ) / (env.activeQuestionCount : ℚ) * 100 := by
    simp [calculate_score, hne]
  exact ⟨base s, base1, base _, base _⟩

/-- Witness for C3 at a concrete session: 1 correct answer out of 2
active questions scores 50. -/
theorem score_is_percentage_witness :
    0 < (2 : Nat) ∧
    (calculate_score ⟨2, 1⟩ { started_at := 0 }).2.score =
      ((1 : Nat) : ℚ) / ((2 : Nat) : ℚ) * 100 :=
  ⟨by decide, (score_is_percentage 0 ⟨2, 1⟩ { started_at := 0 } (by decide)).1⟩

/-- C10: with zero active questions `calculate_score` returns 0 and
leaves the session row (score, correct_answers, total_questions)
untouched. -/
theorem calculate_score_zero_questions (env : ScoreEnv) (s : Session)
    (h : env.activeQuestionCount = 0) : calculate_score env s = (0, s) := by
  simp [calculate_score, h]

/-- Witness for C10. -/
theorem calculate_score_zero_questions_witness :
    calculate_score ⟨0, 3⟩ { started_at := 0, score := 7 } =
      (0, { started_at := 0, score := 7 }) :=
  calculate_score_zero_questions ⟨0, 3⟩ { started_at := 0, score := 7 } rfl

/-! ## Claim C5: remaining time -/

/-- C5: for a completed session `get_remaining_time` returns 0; for a
non-completed one it returns the exam duration in seconds minus
(wall-clock seconds since start, minus accumulated paused seconds,
minus the duration of any in-progress pause), floored at zero (and
truncated to a whole number of seconds by Python's `int()`). -/
theorem get_remaining_time_formula (now : ℚ) (dm : Nat) (s : Session) :
    get_remaining_time now dm { s with is_completed := true } = 0 ∧
    get_remaining_time now dm { s with is_completed := false } =
      ⌊max 0 ((dm : ℚ) * 60 -
        ((now - s.started_at) - (s.total_paused_seconds : ℚ) - inProgressPause now s))⌋ := by
  constructor
  · simp [get_remaining_time]
  · have h0 : (0 : ℚ) ≤ max 0 ((dm : ℚ) * 60 -
        ((now - s.started_at) - (s.total_paused_seconds : ℚ) - inProgressPause now s)) :=
      le_max_left _ _
    simp only [get_remaining_time, inProgressPause, pyInt, Bool.false_eq_true, if_false]
    split <;> simp_all [pyInt]

/-! ## Claim C6: daily token grant -/

/-- C6: on one calendar date `grant_daily_tokens` succeeds at most on
the first call (adding exactly 10 tokens and stamping the date), every
later same-date call returns false and changes nothing, and on a
different date it succeeds exactly once again. -/
theorem grant_daily_tokens_once_per_day (today : Nat) (p : Profile) :
    ((grant_daily_tokens today p).1 = true ↔ p.last_token_grant_date ≠ some today) ∧
    ((grant_daily_tokens today p).1 = true →
      (grant_daily_tokens today p).2 =
        { p with tokens := p.tokens + 10, last_token_grant_date := some today }) ∧
    ((grant_daily_tokens today p).1 = false → (grant_daily_tokens today p).2 = p) ∧
    (grant_daily_tokens today (grant_daily_tokens today p).2).1 = false ∧
    (grant_daily_tokens today (grant_daily_tokens today p).2).2 =
      (grant_daily_tokens today p).2 ∧
    (∀ d : Nat, d ≠ today →
      (grant_daily_tokens d (grant_daily_tokens today p).2).1 = true ∧
      (grant_daily_tokens d
        (grant_daily_tokens d (grant_daily_tokens today p).2).2).1 = false) := by
  by_cases h : p.last_token_grant_date = some today
  · have hg : grant_daily_tokens today p = (false, p) := by
      simp [grant_daily_tokens, h]
    rw [hg]
    refine ⟨by simp [h], by simp, fun _ => rfl, by simp [hg], by simp [hg], ?_⟩
    intro d hd
    have hne : p.last_token_grant_date ≠ some d := by
      rw [h]
      exact fun he => hd (Option.some.inj he).symm
    have hg2 : grant_daily_tokens d p =
        (true, { p with tokens := p.tokens + 10, last_token_grant_date := some d }) := by
      simp [grant_daily_tokens, hne]
    refine ⟨by rw [hg2], ?_⟩
    rw [hg2]
    simp [grant_daily_tokens]
  · have hg : grant_daily_tokens today p =
        (true, { p with tokens := p.tokens + 10, last_token_grant_date := some today }) := by
      simp [grant_daily_tokens, h]
    rw [hg]
    refine ⟨by simp [h], fun _ => rfl, by simp, by simp [grant_daily_tokens],
      by simp [grant_daily_tokens], ?_⟩
    intro d hd
    have hne : some today ≠ some d := fun he => hd (Option.some.inj he).symm
    have hg2 : grant_daily_tokens d
        { p with tokens := p.tokens + 10, last_token_grant_date := some today } =
        (true, { p with tokens := p.tokens + 10 + 10, last_token_grant_date := some d }) := by
      simp [grant_daily_tokens, hne]
    refine ⟨by rw [hg2], ?_⟩
    rw [hg2]
    simp [grant_daily_tokens]

/-- Witness for C6 (the implications and the different-date clause are
discharged at date 5, then date 6). -/
theorem grant_daily_tokens_once_per_day_witness :
    (grant_daily_tokens 5 ⟨100, none⟩).1 = true ∧
    (grant_daily_tokens 5 (grant_daily_tokens 5 ⟨100, none⟩).2).1 = false ∧
    (grant_daily_tokens 6 (grant_daily_tokens 5 ⟨100, none⟩).2).1 = true := by
  have h := grant_daily_tokens_once_per_day 5 ⟨100, none⟩
  refine ⟨h.1.mpr (by decide), h.2.2.2.1, (h.2.2.2.2.2 6 (by decide)).1⟩

/-! ## Claim C9: token deduction guard -/

/-- C9: `deduct_tokens` succeeds and subtracts exactly `amount` when
the balance suffices, otherwise fails leaving the profile unchanged;
consequently a non-negative balance stays non-negative under
`deduct_tokens` (any amount), `add_tokens` (non-negative amount, as
every caller passes) and `grant_daily_tokens`. -/
theorem deduct_tokens_guarded (p : Profile) (amount : Int) (today : Nat) :
    (amount ≤ p.tokens →
      deduct_tokens amount p = (true, { p with tokens := p.tokens - amount })) ∧
    (p.tokens < amount → deduct_tokens amount p = (false, p)) ∧
    (0 ≤ p.tokens → 0 ≤ (deduct_tokens amount p).2.tokens) ∧
    (0 ≤ p.tokens → 0 ≤ amount → 0 ≤ (add_tokens amount p).tokens) ∧
    (0 ≤ p.tokens → 0 ≤ (grant_daily_tokens today p).2.tokens) := by
  by_cases h : amount ≤ p.tokens
  · have hg : deduct_tokens amount p = (true, { p with tokens := p.tokens - amount }) := by
      simp [deduct_tokens, h]
    refine ⟨fun _ => hg, fun hl => absurd h (not_le.mpr hl), ?_, ?_, ?_⟩
    · intro h0
      rw [hg]
      simpa using by omega
    · intro h0 ha
      simp only [add_tokens]
      omega
    · intro h0
      by_cases hd : p.last_token_grant_date = some today <;>
        simp [grant_daily_tokens, hd] <;> omega
  · have hg : deduct_tokens amount p = (false, p) := by
      simp [deduct_tokens, h]
    refine ⟨fun hle => absurd hle h, fun _ => hg, ?_, ?_, ?_⟩
    · intro h0
      rw [hg]
      exact h0
    · intro h0 ha
      simp only [add_tokens]
      omega
    · intro h0
      by_cases hd : p.last_token_grant_date = some today <;>
        simp [grant_daily_tokens, hd] <;> omega

/-- Witness for C9. -/
theorem deduct_tokens_guarded_witness :
    (3 : Int) ≤ 10 ∧ deduct_tokens 3 ⟨10, none⟩ = (true, ⟨7, none⟩) := by
  have h := (deduct_tokens_guarded ⟨10, none⟩ 3 0).1 (by decide)
  exact ⟨by decide, h⟩

/-! ## Claim C8: completion is terminal -/

/-- C8: once a session is completed, `pause_quiz` and `resume_quiz`
return false without modifying it, `quiz_submit_answer` answers HTTP
400 leaving the answers unchanged, and none of the modelled
operations ever resets `is_completed`. -/
theorem completed_is_terminal (now : ℚ) (env : ScoreEnv) (s : Session)
    (answers : List AnswerRec) (questionId : Option Nat)
    (choiceIds questionChoiceIds correct : Finset Nat) (qt : QType)
    (h : s.is_completed = true) :
    pause_quiz now s = (false, s) ∧
    resume_quiz now s = (false, s) ∧
    quizSubmitAnswer "POST".data s answers questionId choiceIds questionChoiceIds qt correct
      = (400, answers) ∧
    (pause_quiz now s).2.is_completed = true ∧
    (resume_quiz now s).2.is_completed = true ∧
    (complete_quiz now env s).is_completed = true ∧
    ((calculate_score env s).2).is_completed = true ∧
    (quizResult now env s).is_completed = true := by
  have hcalc : ∀ t : Session, t.is_completed = true →
      ((calculate_score env t).2).is_completed = true := by
    intro t ht
    unfold calculate_score
    split
    · exact ht
    · simpa using ht
  have h1 : pause_quiz now s = (false, s) := by simp [pause_quiz, h]
  have h2 : resume_quiz now s = (false, s) := by simp [resume_quiz, h]
  have h3 : quizSubmitAnswer "POST".data s answers questionId choiceIds questionChoiceIds
      qt correct = (400, answers) := by
    simp [quizSubmitAnswer, h]
  have h6 : (complete_quiz now env s).is_completed = true := by
    unfold complete_quiz
    exact hcalc _ rfl
  have h8 : (quizResult now env s).is_completed = true := by
    unfold quizResult
    rw [if_pos h]
    exact hcalc s h
  exact ⟨h1, h2, h3, by rw [h1]; exact h, by rw [h2]; exact h, h6, hcalc s h, h8⟩

/-- Witness for C8 at a concrete completed session. -/
theorem completed_is_terminal_witness :
    ({ started_at := 0, is_completed := true } : Session).is_completed = true ∧
    pause_quiz 5 { started_at := 0, is_completed := true } =
      (false, { started_at := 0, is_completed := true }) ∧
    quizSubmitAnswer "POST".data { started_at := 0, is_completed := true } [] (some 1)
      {1} {1} QType.single {1} = (400, []) := by
  have h := completed_is_terminal 5 ⟨1, 1⟩ { started_at := 0, is_completed := true }
    [] (some 1) {1} {1} {1} QType.single rfl
  exact ⟨rfl, h.1, h.2.2.1⟩

end ExamQuiz
